import Mathlib

/-!
Verification development for the submission ingestion-and-coordination core of
the AAMD grade-checker backend (Rust sources `src-tauri/src/grading.rs` and
`src-tauri/src/submissions.rs`).

The durable SQLite store is embedded as an association-list database `Db`.
Each Tauri command becomes a pure function `Db → Except String (Db × _)`:
the `.error` constructor models a command returning `Err` — the Rust command
returns the error before executing any further SQL statement, so the caller's
database is unchanged in that case, which the embedding makes structural.
`CURRENT_TIMESTAMP` is an explicit `now : String` argument.
-/

/-- One row of the `submissions` table, restricted to the columns read or
written by the coordination commands under verification. The row id is the
key of the association list in `Db.submissions`. -/
structure Submission where
  assignment_id : String
  student_id : Option String
  status : String
  claimed_by_ta_id : Option String
  claimed_at : Option String
  match_method : Option String
  match_confidence : Option ℚ
deriving DecidableEq

/-- Structured form of the `details_json` payloads built with `serde_json::json!`
in `grading.rs` (one constructor per distinct payload shape used by the
commands under verification). -/
inductive AuditDetail where
  | previous_ta (prev : Option String)
  | new_status (s : String)
  | matched_student (sid : String)
deriving DecidableEq

/-- One row of the append-only `audit_log` table (the autoincrement id and
timestamp columns are represented by list position). -/
structure AuditEntry where
  ta_id : Option String
  action : String
  entity_type : String
  entity_id : String
  details : Option AuditDetail
deriving DecidableEq

/-- The durable store: `submissions` and `assignments` are keyed association
lists (`assignments` maps an assignment id to its `course_id`), `students` is
the roster as (course_id, student_id) pairs, and `audit_log` is append-only. -/
structure Db where
  submissions : List (String × Submission)
  assignments : List (String × String)
  students : List (String × String)
  audit_log : List AuditEntry
deriving DecidableEq

/-- Model of `UPDATE submissions SET ... WHERE id = ?`: applies `f` to every row whose
key equals `sid` (zero rows affected when the id is absent, exactly as in SQL). -/
def updateSub (l : List (String × Submission)) (sid : String) (f : Submission → Submission) :
    List (String × Submission) :=
  l.map (fun p => if p.1 = sid then (p.1, f p.2) else p)

/-- Model of `INSERT INTO audit_log ...` (the body of `log_audit_internal`). -/
def logAudit (db : Db) (ta_id : Option String) (action entity_type entity_id : String)
    (details : Option AuditDetail) : Db :=
  { db with audit_log := db.audit_log ++ [⟨ta_id, action, entity_type, entity_id, details⟩] }

/-- The first statement of `claim_submission` / `release_submission` /
`force_claim_submission`:
`SELECT claimed_by_ta_id FROM submissions WHERE id = ?` followed by
`.flatten()` — `none` both when the row is absent and when the column is NULL. -/
def claimSelect (db : Db) (sid : String) : Option String :=
  (db.submissions.lookup sid).bind (fun s => s.claimed_by_ta_id)

/-- The write phase of `claim_submission`: the UPDATE setting owner, timestamp
and status, followed by the audit insert. -/
def writeClaim (db : Db) (sid ta now : String) : Db :=
  logAudit { db with submissions := updateSub db.submissions sid (fun s => { s with claimed_by_ta_id := some ta, claimed_at := some now, status := "in_progress" }) } (some ta) "claim" "submission" sid none

/-- The remainder of `claim_submission` after the SELECT, parameterised by the
value `observed` that the SELECT returned. The Rust command runs the SELECT and
the UPDATE as two separate statements (two implicit transactions), so under
concurrency `observed` can be stale with respect to `db`. -/
def claimFinish (observed : Option String) (db : Db) (sid ta now : String) :
    Except String (Db × Bool) :=
  match observed with
  | some existing =>
    if existing ≠ ta then .error "Submission already claimed by another TA"
    else .ok (db, true)
  | none => .ok (writeClaim db sid ta now, true)

/-- The command `claim_submission` from `grading.rs`: check-then-set, composed sequentially. -/
def claim_submission (db : Db) (sid ta now : String) : Except String (Db × Bool) :=
  claimFinish (claimSelect db sid) db sid ta now

/-- Two concurrent `claim_submission` calls on the same submission under the
interleaving in which both SELECT statements commit before either UPDATE runs
(possible because check and set are separate statements). Returns the result
observed by actor `x`, the result observed by actor `y`, and the final store. -/
def claimsInterleaved (db : Db) (sid x y now : String) :
    Except String Bool × Except String Bool × Db :=
  let obsX := claimSelect db sid
  let obsY := claimSelect db sid
  match claimFinish obsX db sid x now with
  | .ok (db1, bx) =>
    (match claimFinish obsY db1 sid y now with
     | .ok (db2, b) => (.ok bx, .ok b, db2)
     | .error e => (.ok bx, .error e, db1))
  | .error e =>
    (match claimFinish obsY db sid y now with
     | .ok (db2, b) => (.error e, .ok b, db2)
     | .error e2 => (.error e, .error e2, db))

/-- The write phase of `release_submission`: clear owner and timestamp (the
status column is not touched), then audit. -/
def releaseWrite (db : Db) (sid ta : String) : Db :=
  logAudit { db with submissions := updateSub db.submissions sid (fun s => { s with claimed_by_ta_id := none, claimed_at := none }) } (some ta) "release" "submission" sid none

/-- The remainder of `release_submission` after the ownership SELECT. -/
def releaseFinish (observed : Option String) (db : Db) (sid ta : String) :
    Except String (Db × Bool) :=
  match observed with
  | some existing =>
    if existing ≠ ta then .error "Cannot release: claimed by another TA"
    else .ok (releaseWrite db sid ta, true)
  | none => .ok (releaseWrite db sid ta, true)

/-- The command `release_submission` from `grading.rs`. -/
def release_submission (db : Db) (sid ta : String) : Except String (Db × Bool) :=
  releaseFinish (claimSelect db sid) db sid ta

/-- The command `force_claim_submission` from `grading.rs`: reads the previous owner for the
audit payload, then overwrites owner and timestamp unconditionally. The status
column is not touched. -/
def force_claim_submission (db : Db) (sid ta now : String) : Except String (Db × Bool) :=
  .ok (logAudit { db with submissions := updateSub db.submissions sid (fun s => { s with claimed_by_ta_id := some ta, claimed_at := some now }) } (some ta) "force_claim" "submission" sid (some (.previous_ta (claimSelect db sid))), true)

/-- The `valid` array of `update_submission_status`. -/
def validStatuses : List String := ["unstarted", "in_progress", "done", "flagged", "error"]

/-- The command `update_submission_status` from `grading.rs`: validate, update, audit. -/
def update_submission_status (db : Db) (sid status : String) (ta_id : Option String) :
    Except String Db :=
  if status ∈ validStatuses then
    .ok (logAudit { db with submissions := updateSub db.submissions sid (fun s => { s with status := status }) } ta_id "status_change" "submission" sid (some (.new_status status)))
  else .error ("Invalid status: " ++ status)

/-- The body of `manual_match_submission` after the course JOIN: the roster
check is the `SELECT 1 FROM students WHERE course_id = ? AND student_id = ?`
probe, then the UPDATE and the audit insert. -/
def manualMatchFinish (course : Option String) (db : Db) (sid student ta : String) :
    Except String Db :=
  match course with
  | none => .error "Submission not found"
  | some cid =>
    if (cid, student) ∈ db.students then
      .ok (logAudit { db with submissions := updateSub db.submissions sid (fun s => { s with student_id := some student, match_method := some "manual", match_confidence := some 1 }) } (some ta) "manual_match" "submission" sid (some (.matched_student student)))
    else .error ("Student " ++ student ++ " not found in roster")

/-- The command `manual_match_submission` from `grading.rs`, composed from the JOIN and the
gate. -/
def manual_match_submission (db : Db) (sid student ta : String) : Except String Db :=
  manualMatchFinish ((db.submissions.lookup sid).bind (fun s => db.assignments.lookup s.assignment_id)) db sid student ta

/-- Row form of the spec's data-model invariant: the owner column is set only
while the status is `in_progress`. -/
abbrev subInv (s : Submission) : Prop :=
  s.claimed_by_ta_id ≠ none → s.status = "in_progress"

/-- The invariant over the whole submissions table. -/
abbrev subsInv (l : List (String × Submission)) : Prop :=
  ∀ p ∈ l, subInv p.2

/-- The invariant over the store. -/
abbrev dbInvariant (db : Db) : Prop := subsInv db.submissions

/-- The store after a command returning `Result<bool, String>`: the new store on
`Ok`, the unchanged store on `Err`. -/
def dbAfterB (db : Db) (r : Except String (Db × Bool)) : Db :=
  match r with
  | .ok (d, _) => d
  | .error _ => db

/-- One entry of a parsed ZIP archive: its raw name string and its declared
uncompressed size in bytes (a directory entry has a name ending in a slash). -/
structure ZipEntry where
  name : String
  size : Nat
deriving DecidableEq

/-- Splitting a character list at `/` separators (structural model of
`name.split('/')`, evaluable by the kernel). -/
def splitSlash : List Char → List (List Char)
  | [] => [[]]
  | c :: rest =>
    match splitSlash rest with
    | [] => [[c]]
    | t :: ts => if c = '/' then [] :: t :: ts else (c :: t) :: ts

/-- The `Normal` components of `Path::new(name)` on a POSIX platform: split on
the separator; empty components and `.` are normalized away (both are no-ops
for the traversal check and for filesystem resolution). -/
def entryComps (name : String) : List String :=
  ((splitSlash name.toList).map (fun cs => String.mk cs)).filter (fun t => t != "" && t != ".")

/-- Whether `Path::new(name)` starts with a `RootDir` component
(`name.starts_with('/')`). -/
def isAbsolute (name : String) : Bool :=
  match name.toList with
  | [] => false
  | c :: _ => c = '/'

/-- Model of `file.name().ends_with('/')`, marking a directory entry. -/
def endsWithSlash (name : String) : Bool :=
  match name.toList.getLast? with
  | some c => c = '/'
  | none => false

/-- The running-depth scan of the zip crate's `enclosed_name`: a `..` component
pops one level and rejects the name (`checked_sub` returning `None`) when the
depth is already zero; a normal component pushes one level. -/
def depthOk : List String → Nat → Bool
  | [], _ => true
  | c :: rest, d =>
    if c = ".." then
      match d with
      | 0 => false
      | Nat.succ d2 => depthOk rest d2
    else depthOk rest (d + 1)

/-- Model of the zip crate's `ZipFile::enclosed_name`, the sole sanitizer used
by `extract_zip`: rejects names containing NUL, absolute names, and names whose
parent-directory components would escape the extraction root (the running depth
going negative); otherwise the name's components are returned verbatim, with
`..` components retained — they are resolved later by the filesystem. -/
def enclosedName (name : String) : Option (List String) :=
  if name.toList.contains (Char.ofNat 0) then none
  else if isAbsolute name then none
  else if depthOk (entryComps name) 0 then some (entryComps name)
  else none

/-- Lexical path resolution as performed by the OS when a path containing `..`
components is passed to a filesystem call: `..` removes the preceding
component. -/
def resolveFrom (acc : List String) : List String → List String
  | [] => acc
  | c :: rest => if c = ".." then resolveFrom acc.dropLast rest else resolveFrom (acc ++ [c]) rest

/-- Resolution of a full path (component list) starting from the filesystem
root. -/
def resolveFull (p : List String) : List String := resolveFrom [] p

/-- The nonempty lexical prefixes of a path, shortest first: the chain of
ancestors `std::fs::create_dir_all` walks. -/
def lexPrefixes (p : List String) : List (List String) :=
  (List.range p.length).map (fun i => p.take (i + 1))

/-- A filesystem write event emitted during extraction (paths are resolved). -/
inductive FsWrite where
  | mkdir (path : List String)
  | writeFile (path : List String) (size : Nat)
deriving DecidableEq

/-- The path targeted by a write event. -/
def FsWrite.path : FsWrite → List String
  | .mkdir p => p
  | .writeFile p _ => p

/-- The filesystem state observed by extraction: the set of existing
directories, as resolved paths. -/
structure Fs where
  dirs : List (List String)
deriving DecidableEq

/-- Walk a chain of lexical prefixes, creating each whose resolved path does
not yet exist; returns the new filesystem and the `mkdir` events emitted. -/
def createDirs : Fs → List (List String) → Fs × List FsWrite
  | fs, [] => (fs, [])
  | fs, q :: rest =>
    if resolveFull q ∈ fs.dirs then createDirs fs rest
    else ((createDirs ⟨fs.dirs ++ [resolveFull q]⟩ rest).1,
          FsWrite.mkdir (resolveFull q) :: (createDirs ⟨fs.dirs ++ [resolveFull q]⟩ rest).2)

/-- Model of `std::fs::create_dir_all`: create every missing ancestor of `p`, then `p`. -/
def createDirAll (fs : Fs) (p : List String) : Fs × List FsWrite :=
  createDirs fs (lexPrefixes p)

/-- The parent-directory step of the file branch of the `extract_zip` loop:
`if let Some(p) = outpath.parent() { if !p.exists() { create_dir_all(p) } }`. -/
def extractParent (outDir : List String) (fs : Fs) (comps : List String) : Fs × List FsWrite :=
  if resolveFull ((outDir ++ comps).dropLast) ∈ fs.dirs then (fs, [])
  else createDirAll fs ((outDir ++ comps).dropLast)

/-- The loop body of `extract_zip` for one archive entry: drop the entry when
`enclosed_name` rejects it; otherwise create the directory (for a name ending
in a slash), or create the missing parent directory and write the file. -/
def extractEntry (outDir : List String) (fs : Fs) (e : ZipEntry) : Fs × List FsWrite :=
  match enclosedName e.name with
  | none => (fs, [])
  | some comps =>
    if endsWithSlash e.name then createDirAll fs (outDir ++ comps)
    else ((extractParent outDir fs comps).1,
          (extractParent outDir fs comps).2 ++
            [FsWrite.writeFile (resolveFull (outDir ++ comps)) e.size])

/-- The function `extract_zip` from `submissions.rs`: extract the entries in order,
threading the filesystem and concatenating the write events. -/
def extract_zip : Fs → List String → List ZipEntry → Fs × List FsWrite
  | fs, _, [] => (fs, [])
  | fs, outDir, e :: rest =>
    ((extract_zip (extractEntry outDir fs e).1 outDir rest).1,
     (extractEntry outDir fs e).2 ++ (extract_zip (extractEntry outDir fs e).1 outDir rest).2)

/-- The result shape of `validate_zip` in `grading.rs`. -/
structure ZipValidationResult where
  is_valid : Bool
  file_count : Nat
  total_size : Nat
  is_zip_bomb : Bool
  error_message : Option String
deriving DecidableEq

/-- Sum of the declared uncompressed sizes, as read from the central directory
with `by_index_raw` — no entry data is decompressed. -/
def totalUncompressed (entries : List ZipEntry) : Nat :=
  (entries.map (fun e => e.size)).sum

/-- Model of `validate_zip` from `grading.rs` on a successfully opened archive
(`compressed_size` is the archive file's on-disk length). The f64 ratio test
`total / compressed > 100.0` is modelled exactly as `100 * compressed < total`;
the two agree on all inputs small enough for f64 to be exact, including every
witness below. The ratio figure interpolated into the message is elided. -/
def validate_zip (entries : List ZipEntry) (compressed_size : Nat) : ZipValidationResult :=
  let file_count := entries.length
  let total_size := totalUncompressed entries
  let is_zip_bomb := (100 * compressed_size < total_size) || (1000000000 < total_size)
  { is_valid := !is_zip_bomb
    file_count := file_count
    total_size := total_size
    is_zip_bomb := is_zip_bomb
    error_message := if is_zip_bomb then some "Potential zip bomb detected" else none }

/-- The path `cache_dir.join(&hash)` from `process_submissions`. -/
def extraction_dir (cacheDir : List String) (digest : String) : List String :=
  cacheDir ++ [digest]

/-- Step 2 of the `process_submissions` loop body: extract only when the
digest-named directory does not already exist. -/
def extractIfAbsent (fs : Fs) (dir : List String) (entries : List ZipEntry) :
    Fs × List FsWrite :=
  if dir ∈ fs.dirs then (fs, []) else extract_zip fs dir entries

/-- Steps 1–2 of the `process_submissions` loop body: hash the archive bytes,
then extract if the digest directory is absent. `hashFn` abstracts the SHA-256
implementation of `compute_sha256` (an external crate); the development uses
only that it is a function of the bytes. -/
def ingestExtract (hashFn : List Nat → String) (fs : Fs) (cacheDir : List String)
    (bytes : List Nat) (entries : List ZipEntry) : Fs × List FsWrite :=
  extractIfAbsent fs (extraction_dir cacheDir (hashFn bytes)) entries

/-- Leftmost match of the regex `(\d{8})`: the first run of eight consecutive
ASCII digits in the string, scanning start positions left to right. -/
def firstDigitRun8 : List Char → Option String
  | [] => none
  | c :: rest =>
    if ((c :: rest).take 8).length == 8 && ((c :: rest).take 8).all Char.isDigit then
      some (String.mk ((c :: rest).take 8))
    else firstDigitRun8 rest

/-- Model of `id_regex.is_match`: the string contains a run of eight consecutive digits. -/
def hasDigitRun8 (s : String) : Bool := (firstDigitRun8 s.toList).isSome

/-- Strategies A and B of the matcher in `process_submissions`: first the
filename pattern; only if it fails, the trimmed contents of the
`student_id.txt` sidecar (`sidecar` is its contents when the file exists and is
readable). Note that when the sidecar matches, the whole trimmed contents
become the candidate, exactly as in the source. -/
def candidateId (filename : String) (sidecar : Option String) : Option String :=
  match firstDigitRun8 filename.toList with
  | some sid => some sid
  | none =>
    match sidecar with
    | some content =>
      if hasDigitRun8 content.trim then some content.trim else none
    | none => none

/-- The decision core of strategy C: given the course looked up for the
assignment and the candidate id, accept the candidate only if (course,
candidate) is in the roster; a candidate not in the roster is cleared and the
outcome is Unmatched. When the course lookup or the candidate is absent, the
`valid_match` flag stays false: the candidate is left as is and the outcome is
Unmatched. -/
def rosterApply : Option String → List (String × String) → Option String → Option String × String
  | some cid, students, some sid =>
    if (cid, sid) ∈ students then (some sid, "Matched") else (none, "Unmatched")
  | _, _, cand => (cand, "Unmatched")

/-- Strategy C of the matcher: the course comes from
`SELECT course_id FROM assignments WHERE id = ?`. -/
def rosterGate (assignments students : List (String × String))
    (assignment_id : String) (cand : Option String) : Option String × String :=
  rosterApply (assignments.lookup assignment_id) students cand

/-- Step 3 of the `process_submissions` loop body: resolve the student identity
for one archive. -/
def resolveSubmission (assignments students : List (String × String))
    (assignment_id filename : String) (sidecar : Option String) : Option String × String :=
  rosterGate assignments students assignment_id (candidateId filename sidecar)

/-- Whether a write event is a file write (as opposed to a mkdir). -/
def isFileWrite : FsWrite → Bool
  | .writeFile _ _ => true
  | .mkdir _ => false

/-- The file-write event that `extract_zip` emits for an entry, if any: safe
non-directory entries produce exactly one full-size write, regardless of any
size or ratio consideration. -/
def safeFileWrite (outDir : List String) (e : ZipEntry) : Option FsWrite :=
  match enclosedName e.name with
  | none => none
  | some comps =>
    if endsWithSlash e.name then none
    else some (FsWrite.writeFile (resolveFull (outDir ++ comps)) e.size)

/-- Fixture: a fresh, unclaimed submission row. -/
def sub0 : Submission :=
  { assignment_id := "a1", student_id := none, status := "unstarted",
    claimed_by_ta_id := none, claimed_at := none, match_method := none,
    match_confidence := none }

/-- Fixture: a store with one unclaimed submission, one assignment in course
`c1`, and a one-student roster. -/
def db0 : Db :=
  { submissions := [("s1", sub0)], assignments := [("a1", "c1")],
    students := [("c1", "12345678")], audit_log := [] }

/-- Fixture: `sub0` claimed by `taA`. -/
def subClaimed : Submission :=
  { sub0 with claimed_by_ta_id := some "taA", claimed_at := some "t0", status := "in_progress" }

/-- Fixture: `db0` with its submission claimed by `taA`. -/
def dbClaimed : Db := { db0 with submissions := [("s1", subClaimed)] }

/-- Fixture: an empty store. -/
def dbEmpty : Db :=
  { submissions := [], assignments := [], students := [], audit_log := [] }

/-- Fixture: a filesystem in which the cache root and one digest directory
exist, with all their ancestors. -/
def fs0 : Fs := ⟨[["cache"], ["cache", "d"]]⟩

/-- Fixture: the digest-named extraction directory of `fs0`. -/
def out0 : List String := ["cache", "d"]

/-- Fixture: a one-entry archive whose declared uncompressed size exceeds both
the 100x ratio bound (against a packed size of 100) and the absolute 10^9
ceiling. -/
def bombEntries : List ZipEntry := [⟨"big.txt", 1000000000000⟩]

/-- Fixture: roster with one student in course `c1`. -/
def roster0 : List (String × String) := [("c1", "12345678")]

/-- Fixture: one assignment `a1` belonging to course `c1`. -/
def assignments0 : List (String × String) := [("a1", "c1")]

theorem updateSub_lookup_none (l : List (String × Submission)) (sid : String)
    (f : Submission → Submission) (h : l.lookup sid = none) : updateSub l sid f = l := by
  induction l with
  | nil => rfl
  | cons p rest ih =>
    obtain ⟨k, v⟩ := p
    by_cases hk : sid = k
    · subst hk
      simp [List.lookup] at h
    · have hbeq : (sid == k) = false := beq_eq_false_iff_ne.mpr hk
      simp only [List.lookup, hbeq] at h
      unfold updateSub at ih ⊢
      simp only [List.map_cons]
      rw [if_neg (fun he => hk he.symm)]
      exact congrArg _ (ih h)

/-- C1: the check-then-set of `claim_submission` is two separate SQL statements,
not one atomic unit. Under the interleaving in which both SELECTs run before
either UPDATE, two concurrent claims on the unclaimed submission of `db0` both
return `Ok(true)`, the final owner is the second writer `taY` (not `taX`), and
two audit entries are appended — contradicting the claimed at-most-one-owner
guarantee, under which Y's claim must fail and the owner must remain X. -/
theorem C1_interleaved_double_claim :
    (claimsInterleaved db0 "s1" "taX" "taY" "t0").1 = .ok true ∧
    (claimsInterleaved db0 "s1" "taX" "taY" "t0").2.1 = .ok true ∧
    claimSelect (claimsInterleaved db0 "s1" "taX" "taY" "t0").2.2 "s1" = some "taY" ∧
    (claimsInterleaved db0 "s1" "taX" "taY" "t0").2.2.audit_log.length = 2 :=
  ⟨rfl, rfl, rfl, rfl⟩

/-- C2 (counterexample): from the invariant-satisfying store `db0` (unclaimed,
status `unstarted`), `force_claim_submission` sets the owner without touching
the status, producing a row with `claimed_by` set while status is not
`in_progress`: the operation does not preserve the invariant. -/
theorem C2_force_claim_breaks_invariant :
    dbInvariant db0 ∧
    ¬ dbInvariant (dbAfterB db0 (force_claim_submission db0 "s1" "taX" "t0")) := by
  constructor <;> decide

theorem subsInv_updateSub (l : List (String × Submission)) (sid : String)
    (f : Submission → Submission) (h : subsInv l) (hf : ∀ s, subInv (f s)) :
    subsInv (updateSub l sid f) := by
  intro p hp
  unfold updateSub at hp
  rcases List.mem_map.mp hp with ⟨q, hq, hEq⟩
  by_cases hk : q.1 = sid
  · rw [if_pos hk] at hEq
    subst hEq
    exact hf q.2
  · rw [if_neg hk] at hEq
    subst hEq
    exact h q hq

/-- C2 (amended): `claim_submission` and `release_submission` do preserve the
invariant that a set owner implies status `in_progress` — claim writes owner
and status together, release clears the owner — while `force_claim_submission`
and `update_submission_status` do not preserve it (see the counterexample). -/
theorem C2_claim_release_preserve (db : Db) (sid ta now : String) (h : dbInvariant db) :
    dbInvariant (dbAfterB db (claim_submission db sid ta now)) ∧
    dbInvariant (dbAfterB db (release_submission db sid ta)) := by
  have hclaim : dbInvariant (writeClaim db sid ta now) :=
    subsInv_updateSub db.submissions sid
      (fun s => { s with claimed_by_ta_id := some ta, claimed_at := some now, status := "in_progress" })
      h (fun s _ => rfl)
  have hrel : dbInvariant (releaseWrite db sid ta) :=
    subsInv_updateSub db.submissions sid
      (fun s => { s with claimed_by_ta_id := none, claimed_at := none })
      h (fun s hc => absurd rfl hc)
  constructor
  · unfold claim_submission
    cases hobs : claimSelect db sid with
    | some existing =>
      by_cases hx : existing = ta
      · subst hx
        simp only [claimFinish]
        rw [if_neg (fun hne => hne rfl)]
        exact h
      · simp only [claimFinish]
        rw [if_pos hx]
        exact h
    | none => exact hclaim
  · unfold release_submission
    cases hobs : claimSelect db sid with
    | some existing =>
      by_cases hx : existing = ta
      · subst hx
        simp only [releaseFinish]
        rw [if_neg (fun hne => hne rfl)]
        exact hrel
      · simp only [releaseFinish]
        rw [if_pos hx]
        exact h
    | none => exact hrel

theorem C2_preserve_witness :
    dbInvariant (dbAfterB db0 (claim_submission db0 "s1" "taX" "t0")) ∧
    dbInvariant (dbAfterB db0 (release_submission db0 "s1" "taX")) :=
  C2_claim_release_preserve db0 "s1" "taX" "t0" (by decide)

/-- C7: a second `claim_submission` by the current owner succeeds as a no-op —
the result is `Ok(true)` with the store returned exactly as it was: no column
changed and no audit entry appended. -/
theorem C7_reclaim_noop (db : Db) (sid ta now : String)
    (h : claimSelect db sid = some ta) :
    claim_submission db sid ta now = .ok (db, true) := by
  unfold claim_submission
  rw [h]
  simp only [claimFinish]
  rw [if_neg (fun hne => hne rfl)]

theorem C7_witness : claim_submission dbClaimed "s1" "taA" "t1" = .ok (dbClaimed, true) :=
  C7_reclaim_noop dbClaimed "s1" "taA" "t1" (by decide)

/-- C10: claiming a submission id absent from the ledger does not fail: the
SELECT observes no owner, the UPDATE affects no row (the submissions table is
returned unchanged), yet a `claim` audit entry naming the nonexistent id is
appended and the call returns `Ok(true)` — existence is never checked. -/
theorem C10_claim_nonexistent (db : Db) (sid ta now : String)
    (h : db.submissions.lookup sid = none) :
    claim_submission db sid ta now =
      .ok ({ db with audit_log := db.audit_log ++ [⟨some ta, "claim", "submission", sid, none⟩] },
           true) := by
  have hsel : claimSelect db sid = none := by
    unfold claimSelect
    rw [h]
    rfl
  unfold claim_submission
  rw [hsel]
  simp only [claimFinish]
  unfold writeClaim logAudit
  rw [updateSub_lookup_none _ _ _ h]

theorem C10_witness :
    claim_submission dbEmpty "ghost" "taA" "t0" =
      .ok ({ dbEmpty with audit_log := [⟨some "taA", "claim", "submission", "ghost", none⟩] },
           true) :=
  C10_claim_nonexistent dbEmpty "ghost" "taA" "t0" (by decide)

/-- C8: `update_submission_status` succeeds exactly for the five whitelisted
status strings. Any other value fails with the validation error and, the error
being returned before any SQL statement runs, leaves the store unchanged and
appends nothing; a whitelisted value is written to the row and audited with the
new value in one appended entry. -/
theorem C8_update_status_validation (db : Db) (sid status : String) (ta : Option String) :
    (status ∉ validStatuses →
      update_submission_status db sid status ta = .error ("Invalid status: " ++ status)) ∧
    (status ∈ validStatuses →
      update_submission_status db sid status ta =
        .ok (logAudit { db with submissions := updateSub db.submissions sid (fun s => { s with status := status }) } ta "status_change" "submission" sid (some (.new_status status)))) := by
  constructor
  · intro hmem
    unfold update_submission_status
    rw [if_neg hmem]
  · intro hmem
    unfold update_submission_status
    rw [if_pos hmem]

theorem C8_witness :
    update_submission_status db0 "s1" "bogus" none = .error ("Invalid status: " ++ "bogus") ∧
    update_submission_status db0 "s1" "done" none =
      .ok (logAudit { db0 with submissions := updateSub db0.submissions "s1" (fun s => { s with status := "done" }) } none "status_change" "submission" "s1" (some (.new_status "done"))) :=
  ⟨(C8_update_status_validation db0 "s1" "bogus" none).1 (by decide),
   (C8_update_status_validation db0 "s1" "done" none).2 (by decide)⟩

/-- C9: for a submission whose assignment resolves to course `cid`,
`manual_match_submission` fails with the unknown-student error when the
candidate is not in that course's roster — the error is returned before any
write, so the row (including `student_id`) is unchanged and nothing is audited;
when the candidate is in the roster, the row receives the student id with match
method `manual` and confidence 1.0, and exactly one audit entry is appended. -/
theorem C9_manual_match_roster_gate (db : Db) (sid student ta : String)
    (sub : Submission) (cid : String)
    (hsub : db.submissions.lookup sid = some sub)
    (hcid : db.assignments.lookup sub.assignment_id = some cid) :
    ((cid, student) ∉ db.students →
      manual_match_submission db sid student ta =
        .error ("Student " ++ student ++ " not found in roster")) ∧
    ((cid, student) ∈ db.students →
      manual_match_submission db sid student ta =
        .ok (logAudit { db with submissions := updateSub db.submissions sid (fun s => { s with student_id := some student, match_method := some "manual", match_confidence := some 1 }) } (some ta) "manual_match" "submission" sid (some (.matched_student student)))) := by
  have hjoin : (db.submissions.lookup sid).bind (fun s => db.assignments.lookup s.assignment_id) = some cid := by
    rw [hsub]
    exact hcid
  constructor
  · intro hmem
    unfold manual_match_submission
    rw [hjoin]
    simp only [manualMatchFinish]
    rw [if_neg hmem]
  · intro hmem
    unfold manual_match_submission
    rw [hjoin]
    simp only [manualMatchFinish]
    rw [if_pos hmem]

theorem C9_witness :
    manual_match_submission db0 "s1" "99999999" "taA" =
      .error ("Student " ++ "99999999" ++ " not found in roster") ∧
    manual_match_submission db0 "s1" "12345678" "taA" =
      .ok (logAudit { db0 with submissions := updateSub db0.submissions "s1" (fun s => { s with student_id := some "12345678", match_method := some "manual", match_confidence := some 1 }) } (some "taA") "manual_match" "submission" "s1" (some (.matched_student "12345678"))) :=
  ⟨(C9_manual_match_roster_gate db0 "s1" "99999999" "taA" sub0 "c1" (by decide) (by decide)).1 (by decide),
   (C9_manual_match_roster_gate db0 "s1" "12345678" "taA" sub0 "c1" (by decide) (by decide)).2 (by decide)⟩

/-- C3: the extraction path is a pure function of the archive digest — two
byte-identical archives resolve to the same digest-named directory — and when
that directory already exists the extraction step is skipped entirely: the
filesystem is untouched and zero write events are emitted. -/
theorem C3_dedup_extraction (hashFn : List Nat → String) (cacheDir : List String) (fs : Fs)
    (b1 b2 : List Nat) (entries : List ZipEntry)
    (hb : b1 = b2) (hdir : extraction_dir cacheDir (hashFn b1) ∈ fs.dirs) :
    extraction_dir cacheDir (hashFn b1) = extraction_dir cacheDir (hashFn b2) ∧
    ingestExtract hashFn fs cacheDir b2 entries = (fs, []) := by
  subst hb
  refine ⟨rfl, ?_⟩
  unfold ingestExtract extractIfAbsent
  rw [if_pos hdir]

theorem C3_witness :
    extraction_dir ["cache"] ((fun _ => "d") [7, 7]) = extraction_dir ["cache"] ((fun _ => "d") [7, 7]) ∧
    ingestExtract (fun _ => "d") fs0 ["cache"] [7, 7] [⟨"a.txt", 3⟩] = (fs0, []) :=
  C3_dedup_extraction (fun _ => "d") ["cache"] fs0 [7, 7] [7, 7] [⟨"a.txt", 3⟩] rfl (by decide)

/-- C6: identity resolution is strictly ordered with first success winning —
if the filename contains an eight-digit run the sidecar is never consulted, and
only when it does not is the `student_id.txt` sidecar read, its trimmed
contents becoming the candidate when the digit pattern matches them. Whatever
candidate emerges, it is accepted only when (course, candidate) is in the
roster, yielding outcome `Matched`; a candidate absent from the roster is
cleared, yielding `Unmatched` with no student id rather than an error, and no
candidate at all likewise yields `Unmatched`. -/
theorem C6_identity_resolution (assignments students : List (String × String))
    (aid filename : String) (sidecar : Option String) (cid : String)
    (hcid : assignments.lookup aid = some cid) :
    (∀ sid, firstDigitRun8 filename.toList = some sid →
      candidateId filename sidecar = some sid) ∧
    (firstDigitRun8 filename.toList = none →
      candidateId filename sidecar =
        (match sidecar with
         | some content => if hasDigitRun8 content.trim then some content.trim else none
         | none => none)) ∧
    (∀ sid, candidateId filename sidecar = some sid → (cid, sid) ∈ students →
      resolveSubmission assignments students aid filename sidecar = (some sid, "Matched")) ∧
    (∀ sid, candidateId filename sidecar = some sid → (cid, sid) ∉ students →
      resolveSubmission assignments students aid filename sidecar = (none, "Unmatched")) ∧
    (candidateId filename sidecar = none →
      resolveSubmission assignments students aid filename sidecar = (none, "Unmatched")) := by
  refine ⟨?_, ?_, ?_, ?_, ?_⟩
  · intro sid hrun
    unfold candidateId
    rw [hrun]
  · intro hrun
    unfold candidateId
    rw [hrun]
  · intro sid hcand hmem
    unfold resolveSubmission rosterGate
    rw [hcand, hcid]
    simp only [rosterApply]
    rw [if_pos hmem]
  · intro sid hcand hmem
    unfold resolveSubmission rosterGate
    rw [hcand, hcid]
    simp only [rosterApply]
    rw [if_neg hmem]
  · intro hcand
    unfold resolveSubmission rosterGate
    rw [hcand, hcid]
    simp only [rosterApply]

theorem C6_witness :
    resolveSubmission assignments0 roster0 "a1" "12345678_hw1.zip" none = (some "12345678", "Matched") ∧
    resolveSubmission assignments0 roster0 "a1" "hw1_submission.zip" none = (none, "Unmatched") :=
  ⟨(C6_identity_resolution assignments0 roster0 "a1" "12345678_hw1.zip" none "c1" (by decide)).2.2.1 "12345678" (by decide) (by decide),
   (C6_identity_resolution assignments0 roster0 "a1" "hw1_submission.zip" none "c1" (by decide)).2.2.2.2 (by decide)⟩

theorem resolveFrom_no_dotdot (p : List String) : ∀ acc : List String, ".." ∉ p →
    resolveFrom acc p = acc ++ p := by
  induction p with
  | nil => intro acc _; simp [resolveFrom]
  | cons c rest ih =>
    intro acc h
    have hc : ¬(c = "..") := fun he => h (by rw [he]; exact List.mem_cons_self _ _)
    unfold resolveFrom
    rw [if_neg hc, ih (acc ++ [c]) (fun hm => h (List.mem_cons_of_mem _ hm)), List.append_assoc]
    rfl

theorem resolveFull_no_dotdot (l : List String) (h : ".." ∉ l) : resolveFull l = l := by
  unfold resolveFull
  rw [resolveFrom_no_dotdot l [] h]
  rfl

theorem resolveFrom_append (p : List String) : ∀ (acc q : List String),
    resolveFrom acc (p ++ q) = resolveFrom (resolveFrom acc p) q := by
  induction p with
  | nil => intro acc q; rfl
  | cons c rest ih =>
    intro acc q
    by_cases hc : c = ".."
    · simp only [List.cons_append, resolveFrom, if_pos hc]
      exact ih _ _
    · simp only [List.cons_append, resolveFrom, if_neg hc]
      exact ih _ _

theorem depthOk_take (comps : List String) : ∀ (d j : Nat), depthOk comps d = true →
    depthOk (comps.take j) d = true := by
  induction comps with
  | nil => intro d j _; rw [List.take_nil]; rfl
  | cons c rest ih =>
    intro d j h
    cases j with
    | zero => rfl
    | succ j2 =>
      rw [List.take_succ_cons]
      unfold depthOk at h ⊢
      by_cases hc : c = ".."
      · rw [if_pos hc] at h ⊢
        cases d with
        | zero => exact absurd h (by simp)
        | succ d2 => exact ih d2 j2 h
      · rw [if_neg hc] at h ⊢
        exact ih (d + 1) j2 h

theorem resolveFrom_keeps_root (comps : List String) : ∀ (root extra : List String),
    depthOk comps extra.length = true → root <+: resolveFrom (root ++ extra) comps := by
  induction comps with
  | nil => intro root extra _; exact List.prefix_append root extra
  | cons c rest ih =>
    intro root extra h
    unfold depthOk at h
    unfold resolveFrom
    by_cases hc : c = ".."
    · rw [if_pos hc] at h ⊢
      cases hex : extra with
      | nil =>
        rw [hex] at h
        exact absurd h (by simp)
      | cons e es =>
        rw [hex] at h
        rw [List.dropLast_append_of_ne_nil _ (List.cons_ne_nil e es)]
        exact ih root (e :: es).dropLast (by rw [List.length_dropLast_cons]; exact h)
    · rw [if_neg hc] at h ⊢
      rw [List.append_assoc]
      exact ih root (extra ++ [c]) (by simpa using h)

theorem resolveFull_in_outDir (outDir comps : List String)
    (h2 : ".." ∉ outDir) (hdep : depthOk comps 0 = true) :
    outDir <+: resolveFull (outDir ++ comps) := by
  unfold resolveFull
  rw [resolveFrom_append outDir [] comps, resolveFrom_no_dotdot outDir [] h2, List.nil_append]
  have hp := resolveFrom_keeps_root comps outDir [] hdep
  rw [List.append_nil] at hp
  exact hp

theorem enclosedName_eq_some (name : String) (comps : List String)
    (h : enclosedName name = some comps) :
    comps = entryComps name ∧ depthOk (entryComps name) 0 = true := by
  unfold enclosedName at h
  by_cases h0 : name.toList.contains (Char.ofNat 0) = true
  · rw [if_pos h0] at h
    exact absurd h (by simp)
  · rw [if_neg h0] at h
    by_cases habs : isAbsolute name = true
    · rw [if_pos habs] at h
      exact absurd h (by simp)
    · rw [if_neg habs] at h
      by_cases hdep : depthOk (entryComps name) 0 = true
      · rw [if_pos hdep] at h
        exact ⟨(Option.some_inj.mp h).symm, hdep⟩
      · rw [if_neg hdep] at h
        exact absurd h (by simp)

theorem lexPrefixes_dropLast_subset (p : List String) :
    ∀ q ∈ lexPrefixes p.dropLast, q ∈ lexPrefixes p := by
  intro q hq
  unfold lexPrefixes at hq ⊢
  rcases List.mem_map.mp hq with ⟨i, hi, hqe⟩
  rw [List.mem_range, List.length_dropLast] at hi
  refine List.mem_map.mpr ⟨i, List.mem_range.mpr (by omega), ?_⟩
  rw [← hqe, List.dropLast_eq_take, List.take_take]
  congr 1
  omega

theorem prefixTargets (outDir : List String) (fs : Fs) (comps : List String)
    (h1 : ∀ q ∈ lexPrefixes outDir, q ≠ outDir → q ∈ fs.dirs)
    (h2 : ".." ∉ outDir) (hdep : depthOk comps 0 = true) :
    ∀ q ∈ lexPrefixes (outDir ++ comps), outDir <+: resolveFull q ∨ resolveFull q ∈ fs.dirs := by
  intro q hq
  unfold lexPrefixes at hq
  rcases List.mem_map.mp hq with ⟨i, hi, hqe⟩
  rw [List.mem_range] at hi
  by_cases hle : i + 1 ≤ outDir.length
  · have hqe2 : q = outDir.take (i + 1) := by
      rw [← hqe]
      exact List.take_append_of_le_length hle
    have hnd : ".." ∉ outDir.take (i + 1) := fun hm => h2 (List.take_subset _ _ hm)
    by_cases heq : i + 1 = outDir.length
    · left
      rw [hqe2, heq, List.take_length, resolveFull_no_dotdot outDir h2]
    · right
      have hmem : outDir.take (i + 1) ∈ lexPrefixes outDir := by
        unfold lexPrefixes
        exact List.mem_map.mpr ⟨i, List.mem_range.mpr (by omega), rfl⟩
      have hne : outDir.take (i + 1) ≠ outDir := by
        intro he
        have hl := congrArg List.length he
        rw [List.length_take] at hl
        omega
      rw [hqe2, resolveFull_no_dotdot _ hnd]
      exact h1 _ hmem hne
  · left
    have hsp : q = outDir ++ comps.take (i + 1 - outDir.length) := by
      rw [← hqe]
      have hiq : i + 1 = outDir.length + (i + 1 - outDir.length) := by omega
      rw [hiq, List.take_append, Nat.add_sub_cancel_left]
    rw [hsp]
    exact resolveFull_in_outDir outDir _ h2 (depthOk_take comps 0 _ hdep)

theorem createDirs_subset (qs : List (List String)) : ∀ fs : Fs,
    fs.dirs ⊆ (createDirs fs qs).1.dirs := by
  induction qs with
  | nil => intro fs a ha; exact ha
  | cons q rest ih =>
    intro fs
    unfold createDirs
    by_cases hq : resolveFull q ∈ fs.dirs
    · rw [if_pos hq]
      exact ih fs
    · rw [if_neg hq]
      intro a ha
      exact ih ⟨fs.dirs ++ [resolveFull q]⟩ (List.mem_append_left _ ha)

theorem createDirs_events (outDir : List String) (qs : List (List String)) : ∀ (fs : Fs),
    (∀ q ∈ qs, outDir <+: resolveFull q ∨ resolveFull q ∈ fs.dirs) →
    ∀ w ∈ (createDirs fs qs).2, outDir <+: w.path := by
  induction qs with
  | nil =>
    intro fs _ w hw
    exact absurd hw (by simp [createDirs])
  | cons q rest ih =>
    intro fs h w hw
    unfold createDirs at hw
    by_cases hq : resolveFull q ∈ fs.dirs
    · rw [if_pos hq] at hw
      exact ih fs (fun q' hq' => h q' (List.mem_cons_of_mem _ hq')) w hw
    · rw [if_neg hq] at hw
      rcases List.mem_cons.mp hw with hw1 | hw2
      · rw [hw1]
        rcases h q (List.mem_cons_self _ _) with hpre | hmem
        · exact hpre
        · exact absurd hmem hq
      · refine ih ⟨fs.dirs ++ [resolveFull q]⟩ ?_ w hw2
        intro q' hq'
        rcases h q' (List.mem_cons_of_mem _ hq') with hpre | hmem
        · exact Or.inl hpre
        · exact Or.inr (List.mem_append_left _ hmem)

theorem extractEntry_dirs_mono (outDir : List String) (fs : Fs) (e : ZipEntry) :
    fs.dirs ⊆ (extractEntry outDir fs e).1.dirs := by
  unfold extractEntry
  cases henc : enclosedName e.name with
  | none => exact fun a ha => ha
  | some comps =>
    dsimp only
    by_cases hdir : endsWithSlash e.name = true
    · rw [if_pos hdir]
      exact createDirs_subset _ fs
    · rw [if_neg hdir]
      unfold extractParent
      by_cases hpar : resolveFull ((outDir ++ comps).dropLast) ∈ fs.dirs
      · rw [if_pos hpar]
        exact fun a ha => ha
      · rw [if_neg hpar]
        exact createDirs_subset _ fs

theorem extractEntry_writes_in_subtree (outDir : List String) (fs : Fs) (e : ZipEntry)
    (h1 : ∀ q ∈ lexPrefixes outDir, q ≠ outDir → q ∈ fs.dirs) (h2 : ".." ∉ outDir) :
    ∀ w ∈ (extractEntry outDir fs e).2, outDir <+: w.path := by
  intro w hw
  unfold extractEntry at hw
  cases henc : enclosedName e.name with
  | none =>
    rw [henc] at hw
    exact absurd hw (by simp)
  | some comps =>
    rw [henc] at hw
    dsimp only at hw
    have hdep : depthOk comps 0 = true := by
      rcases enclosedName_eq_some e.name comps henc with ⟨hce, hdp⟩
      rw [hce]
      exact hdp
    by_cases hdir : endsWithSlash e.name = true
    · rw [if_pos hdir] at hw
      exact createDirs_events outDir _ fs (prefixTargets outDir fs comps h1 h2 hdep) w hw
    · rw [if_neg hdir] at hw
      rcases List.mem_append.mp hw with hw1 | hw2
      · unfold extractParent at hw1
        by_cases hpar : resolveFull ((outDir ++ comps).dropLast) ∈ fs.dirs
        · rw [if_pos hpar] at hw1
          exact absurd hw1 (by simp)
        · rw [if_neg hpar] at hw1
          refine createDirs_events outDir _ fs ?_ w hw1
          intro q hq
          exact prefixTargets outDir fs comps h1 h2 hdep q (lexPrefixes_dropLast_subset _ q hq)
      · have hw3 : w = FsWrite.writeFile (resolveFull (outDir ++ comps)) e.size := by
          rcases List.mem_singleton.mp hw2 with h3
          exact h3
        rw [hw3]
        exact resolveFull_in_outDir outDir comps h2 hdep

theorem extract_zip_writes_in_subtree (outDir : List String) (es : List ZipEntry) : ∀ (fs : Fs),
    (∀ q ∈ lexPrefixes outDir, q ≠ outDir → q ∈ fs.dirs) → ".." ∉ outDir →
    ∀ w ∈ (extract_zip fs outDir es).2, outDir <+: w.path := by
  induction es with
  | nil =>
    intro fs _ _ w hw
    exact absurd hw (by simp [extract_zip])
  | cons e rest ih =>
    intro fs h1 h2 w hw
    unfold extract_zip at hw
    rcases List.mem_append.mp hw with hw1 | hw2
    · exact extractEntry_writes_in_subtree outDir fs e h1 h2 w hw1
    · refine ih (extractEntry outDir fs e).1 ?_ h2 w hw2
      intro q hq hne
      exact extractEntry_dirs_mono outDir fs e (h1 q hq hne)

theorem createDirs_no_fileWrites (qs : List (List String)) : ∀ fs : Fs,
    ((createDirs fs qs).2).filter isFileWrite = [] := by
  induction qs with
  | nil => intro fs; rfl
  | cons q rest ih =>
    intro fs
    unfold createDirs
    by_cases hq : resolveFull q ∈ fs.dirs
    · rw [if_pos hq]
      exact ih fs
    · rw [if_neg hq]
      dsimp only
      rw [List.filter_cons]
      rw [show isFileWrite (FsWrite.mkdir (resolveFull q)) = false from rfl]
      simp only [Bool.false_eq_true, if_false]
      exact ih ⟨fs.dirs ++ [resolveFull q]⟩

theorem extractEntry_fileWrites (outDir : List String) (fs : Fs) (e : ZipEntry) :
    ((extractEntry outDir fs e).2).filter isFileWrite = (safeFileWrite outDir e).toList := by
  unfold extractEntry safeFileWrite
  cases henc : enclosedName e.name with
  | none => rfl
  | some comps =>
    dsimp only
    by_cases hdir : endsWithSlash e.name = true
    · rw [if_pos hdir, if_pos hdir]
      exact createDirs_no_fileWrites _ fs
    · rw [if_neg hdir, if_neg hdir]
      dsimp only
      rw [List.filter_append]
      unfold extractParent
      by_cases hpar : resolveFull ((outDir ++ comps).dropLast) ∈ fs.dirs
      · rw [if_pos hpar]
        rfl
      · rw [if_neg hpar]
        unfold createDirAll
        rw [createDirs_no_fileWrites]
        rfl

theorem extract_zip_fileWrites (outDir : List String) (es : List ZipEntry) : ∀ fs : Fs,
    ((extract_zip fs outDir es).2).filter isFileWrite = es.filterMap (safeFileWrite outDir) := by
  induction es with
  | nil => intro fs; rfl
  | cons e rest ih =>
    intro fs
    unfold extract_zip
    dsimp only
    rw [List.filter_append, extractEntry_fileWrites, ih]
    cases hsf : safeFileWrite outDir e with
    | none =>
      rw [List.filterMap_cons_none hsf]
      rfl
    | some wv =>
      rw [List.filterMap_cons_some hsf]
      rfl

/-- C4 (counterexample): a hostile one-entry archive whose declared size breaks
both bounds. `validate_zip` (a separate command, computing over central
directory metadata) does flag it, but `extract_zip` — the extractor actually
run during ingestion — performs no size tracking at all: it unpacks the entry
in full, emitting the complete terabyte-sized write instead of aborting. -/
theorem C4_extractor_never_aborts :
    (validate_zip bombEntries 100).is_zip_bomb = true ∧
    (validate_zip bombEntries 100).is_valid = false ∧
    (extract_zip fs0 out0 bombEntries).2 =
      [FsWrite.writeFile ["cache", "d", "big.txt"] 1000000000000] := by
  refine ⟨rfl, rfl, ?_⟩
  decide

/-- C4 (amended): bomb detection lives in the separate `validate_zip` command,
which sums the declared uncompressed sizes from the archive's central directory
without unpacking any data and reports `is_zip_bomb` (with `is_valid` its
negation) exactly when the total exceeds 100 times the packed size or the
1 GB ceiling; the extractor itself tracks nothing and never aborts — it emits
one full-size write for every safe non-directory entry regardless of sizes. -/
theorem C4_validation_without_unpacking (es : List ZipEntry) (comp : Nat) (fs : Fs)
    (outDir : List String) :
    (validate_zip es comp).is_zip_bomb =
      ((100 * comp < totalUncompressed es : Bool) || (1000000000 < totalUncompressed es : Bool)) ∧
    (validate_zip es comp).is_valid = !(validate_zip es comp).is_zip_bomb ∧
    (validate_zip es comp).file_count = es.length ∧
    ((extract_zip fs outDir es).2).filter isFileWrite = es.filterMap (safeFileWrite outDir) :=
  ⟨rfl, rfl, rfl, extract_zip_fileWrites outDir es fs⟩

/-- C5 (counterexample): the entry name `a/../b` contains a parent-directory
segment, yet `enclosed_name` accepts it (its running depth never goes negative)
and `extract_zip` writes a file for it — at the resolved location
`cache/d/b` inside the subtree — so the entry is not dropped. -/
theorem C5_balanced_dotdot_not_dropped :
    (extractEntry out0 fs0 ⟨"a/../b", 5⟩).2 = [FsWrite.writeFile ["cache", "d", "b"] 5] ∧
    (extractEntry out0 fs0 ⟨"a/../b", 5⟩).2 ≠ [] := by
  constructor <;> decide

/-- C5 (amended): an entry whose name is absolute is always rejected by
`enclosed_name`; every entry `enclosed_name` rejects (absolute names, names with
NUL, and names whose parent-directory segments would escape the root) is
dropped with no write at all; and — provided the extraction root's proper
ancestors exist and its own path has no parent segments, as `process_submissions`
guarantees by creating the cache directory first — every write any archive can
provoke targets a path having the digest directory as a prefix: nothing is ever
created outside the destination subtree. -/
theorem C5_traversal_neutralized (es : List ZipEntry) (fs : Fs) (outDir : List String)
    (h1 : ∀ q ∈ lexPrefixes outDir, q ≠ outDir → q ∈ fs.dirs)
    (h2 : ".." ∉ outDir) :
    (∀ name, isAbsolute name = true → enclosedName name = none) ∧
    (∀ (e : ZipEntry) (fs2 : Fs), enclosedName e.name = none → extractEntry outDir fs2 e = (fs2, [])) ∧
    (∀ w ∈ (extract_zip fs outDir es).2, outDir <+: w.path) := by
  refine ⟨?_, ?_, ?_⟩
  · intro name habs
    unfold enclosedName
    by_cases h0 : name.toList.contains (Char.ofNat 0) = true
    · rw [if_pos h0]
    · rw [if_neg h0, if_pos habs]
  · intro e fs2 h
    unfold extractEntry
    rw [h]
  · exact extract_zip_writes_in_subtree outDir es fs h1 h2

theorem C5_witness :
    extractEntry out0 fs0 ⟨"/etc/passwd", 7⟩ = (fs0, []) :=
  (C5_traversal_neutralized [] fs0 out0 (by decide) (by decide)).2.1 ⟨"/etc/passwd", 7⟩ fs0 (by decide)
